import Mathlib

/-!
Verification development for the pedestal map-file model of
JeffersonLab/japan-MOLLER (`macro/mapfile.py`) and the tile-code decoding it
shares with `macro/tq_weights.py`.

Python strings are modelled as lists of characters (`Str`), a file as the
list of its lines (each line without its trailing newline), and the numeric
values flowing through the scripts as exact rationals (`Rat`) in place of
IEEE floats; operations that can raise exceptions return `Option` values or
explicit outcome flags.
-/

namespace MapFile

/-- Python strings, modelled as lists of characters. -/
abbrev Str := List Char

/-- View a Lean string literal in the character-list model. -/
def toL (s : String) : Str := s.data

/-- ASCII whitespace characters recognised by Python `str.split()` (the
characters of the ASCII range on which `str.isspace` is true).  The map
files are opened with `encoding="ascii"`, so only the ASCII range is
relevant to the model. -/
def pyWS (c : Char) : Bool :=
  c = ' ' || c = '\t' || c = '\n' || c = '\x0b' || c = '\x0c' || c = '\r' ||
  c = '\x1c' || c = '\x1d' || c = '\x1e' || c = '\x1f'

/-- A printable ASCII token: non-empty, every character ASCII and not
whitespace.  Such strings pass through whitespace tokenization intact and
can be written to the ASCII-encoded file. -/
def isTok (s : Str) : Bool :=
  !s.isEmpty && s.all (fun c => c.toNat < 128 && !pyWS c)

/-- Accumulator-based whitespace tokenizer: Python `str.split()` with no
arguments (split on runs of whitespace, dropping empty tokens). -/
def splitWSAux : Str → Str → List Str
  | [], acc => if acc.isEmpty then [] else [acc.reverse]
  | c :: cs, acc =>
    if pyWS c then
      if acc.isEmpty then splitWSAux cs []
      else acc.reverse :: splitWSAux cs []
    else splitWSAux cs (c :: acc)

/-- Python `line.split()` in the character-list model. -/
def splitWS (s : Str) : List Str := splitWSAux s []

/-- Python format `f"{s:n}"` for strings (left-justify, pad with spaces on
the right). -/
def padRight (n : Nat) (s : Str) : Str := s ++ List.replicate (n - s.length) ' '

/-- Python format `f"{s:>n}"` (right-justify, pad with spaces on the left). -/
def padLeft (n : Nat) (s : Str) : Str := List.replicate (n - s.length) ' ' ++ s

/-- Python format `f"{s:^n}"` (centre; the extra space goes to the right). -/
def padCenter (n : Nat) (s : Str) : Str :=
  List.replicate ((n - s.length) / 2) ' ' ++ s ++
    List.replicate (n - s.length - (n - s.length) / 2) ' '

/-- Python `" ".join(xs)`. -/
def joinSp : List Str → Str
  | [] => []
  | [x] => x
  | x :: y :: xs => x ++ ' ' :: joinSp (y :: xs)

/-- Tokens contain no whitespace. -/
theorem isTok_noWS {s : Str} (h : isTok s = true) : ∀ c ∈ s, pyWS c = false := by
  simp [isTok] at h
  exact fun c hc => (h.2 c hc).2

/-- Tokens are non-empty. -/
theorem isTok_ne_nil {s : Str} (h : isTok s = true) : s ≠ [] := by
  simp [isTok] at h
  exact h.1

theorem splitWSAux_ws_skip {w : Str} (hw : ∀ c ∈ w, pyWS c = true) (s : Str) :
    splitWSAux (w ++ s) [] = splitWSAux s [] := by
  induction w with
  | nil => rfl
  | cons c cs ih =>
    have hc : pyWS c = true := hw c (by simp)
    simp only [List.cons_append, splitWSAux, hc, if_pos, List.isEmpty_nil, if_true]
    exact ih (fun c hc => hw c (by simp [hc]))

theorem splitWSAux_accum {t : Str} (ht : ∀ c ∈ t, pyWS c = false) (s acc : Str) :
    splitWSAux (t ++ s) acc = splitWSAux s (t.reverse ++ acc) := by
  induction t generalizing acc with
  | nil => simp
  | cons c cs ih =>
    have hc : pyWS c = false := ht c (by simp)
    simp only [List.cons_append, splitWSAux, hc, Bool.false_eq_true, if_false,
      List.append_eq]
    rw [ih (fun c hc => ht c (by simp [hc])) (c :: acc)]
    simp

theorem splitWSAux_flush {acc : Str} (hacc : acc ≠ []) {w : Str} (hw : ∀ c ∈ w, pyWS c = true)
    (hwne : w ≠ []) (s : Str) :
    splitWSAux (w ++ s) acc = acc.reverse :: splitWSAux s [] := by
  match w, hwne with
  | c :: cs, _ =>
    have hc : pyWS c = true := hw c (by simp)
    have hae : acc.isEmpty = false := by simpa [List.isEmpty_iff] using hacc
    simp only [List.cons_append, splitWSAux, hc, if_pos, hae, Bool.false_eq_true, if_false,
      List.append_eq]
    rw [splitWSAux_ws_skip (fun x hx => hw x (List.mem_cons_of_mem c hx))]

theorem splitWSAux_nil_of_ne {acc : Str} (hacc : acc ≠ []) :
    splitWSAux [] acc = [acc.reverse] := by
  have hae : acc.isEmpty = false := by simpa [List.isEmpty_iff] using hacc
  simp [splitWSAux, hae]

/-- Splitting a token followed by trailing whitespace and a space-separated
continuation yields the token and the split of the continuation. -/
theorem splitWS_block_step {t : Str} (ht : isTok t = true) {w : Str}
    (hw : ∀ c ∈ w, pyWS c = true) (rest : Str) :
    splitWSAux (t ++ w ++ ' ' :: rest) [] = t :: splitWSAux rest [] := by
  rw [List.append_assoc, splitWSAux_accum (isTok_noWS ht)]
  have hrw : w ++ ' ' :: rest = (w ++ [' ']) ++ rest := by simp
  rw [hrw, splitWSAux_flush (by simpa using isTok_ne_nil ht)
    (fun c hc => by rcases List.mem_append.mp hc with h | h
                    exacts [hw c h, by simp at h; simp [h, pyWS]]) (by simp)]
  simp

/-- Splitting a token followed only by trailing whitespace yields just the
token. -/
theorem splitWS_block_end {t : Str} (ht : isTok t = true) {w : Str}
    (hw : ∀ c ∈ w, pyWS c = true) :
    splitWSAux (t ++ w) [] = [t] := by
  rw [splitWSAux_accum (isTok_noWS ht)]
  cases hwe : w with
  | nil =>
    simp only [List.append_nil] at *
    rw [splitWSAux_nil_of_ne (by simpa using isTok_ne_nil ht)]
    simp
  | cons c cs =>
    rw [← hwe]
    have : splitWSAux (w ++ []) (t.reverse ++ []) = (t.reverse ++ []).reverse ::
        splitWSAux [] [] := by
      refine splitWSAux_flush (by simpa using isTok_ne_nil ht) hw (by simp [hwe]) []
    simpa [splitWSAux] using this

/-- Every character of a run of spaces is whitespace. -/
theorem replicate_space_ws (n : Nat) : ∀ c ∈ List.replicate n ' ', pyWS c = true := by
  intro c hc
  have := List.eq_of_mem_replicate hc
  simp [this, pyWS]

/-- Splitting a space-joined list of whitespace-padded tokens recovers the
tokens. -/
theorem splitWS_joinSp_pads (pad : Str → Str) :
    ∀ ts : List Str, (∀ t ∈ ts, isTok t = true) →
    (∀ t ∈ ts, ∃ w1 w2, (∀ c ∈ w1, pyWS c = true) ∧ (∀ c ∈ w2, pyWS c = true) ∧
      pad t = w1 ++ t ++ w2) →
    splitWSAux (joinSp (ts.map pad)) [] = ts := by
  intro ts
  induction ts with
  | nil => intro _ _; rfl
  | cons t ts ih =>
    intro htok hpad
    obtain ⟨w1, w2, hw1, hw2, heq⟩ := hpad t (by simp)
    cases ts with
    | nil =>
      simp only [List.map_cons, List.map_nil, joinSp, heq, List.append_assoc]
      rw [splitWSAux_ws_skip hw1, splitWS_block_end (htok t (by simp)) hw2]
    | cons t2 ts2 =>
      have hjoin : joinSp ((t :: t2 :: ts2).map pad) =
          pad t ++ ' ' :: joinSp ((t2 :: ts2).map pad) := by
        simp [joinSp]
      rw [hjoin, heq]
      have hrw : w1 ++ t ++ w2 ++ ' ' :: joinSp ((t2 :: ts2).map pad) =
          w1 ++ (t ++ w2 ++ ' ' :: joinSp ((t2 :: ts2).map pad)) := by simp
      rw [hrw, splitWSAux_ws_skip hw1,
        splitWS_block_step (htok t (by simp)) hw2,
        ih (fun x hx => htok x (by simp [hx])) (fun x hx => hpad x (by simp [hx]))]

/-- Digit value of a character. -/
def digVal (c : Char) : Nat := c.toNat - '0'.toNat

/-- Natural number denoted by a digit string (0 for the empty string). -/
def natFromDigits (s : Str) : Nat := s.foldl (fun a c => a * 10 + digVal c) 0

/-- Decimal representation of a natural number, as Python `str` produces it. -/
def natRepr (n : Nat) : Str := Nat.toDigits 10 n

/-- Decimal representation of an integer, as Python `str` produces it. -/
def intRepr (n : Int) : Str :=
  if n < 0 then '-' :: natRepr n.natAbs else natRepr n.toNat

/-- Python `int(s)` on a string: optional sign followed by digits.
(Surrounding whitespace and underscore separators are not modelled; the
claims never exercise them.) -/
def parseIntStr (s : Str) : Option Int :=
  match s with
  | [] => none
  | c :: rest =>
    if c = '-' then
      if rest ≠ [] ∧ rest.all Char.isDigit then some (-(natFromDigits rest : Int)) else none
    else if c = '+' then
      if rest ≠ [] ∧ rest.all Char.isDigit then some ((natFromDigits rest : Int)) else none
    else if (c :: rest).all Char.isDigit then some ((natFromDigits (c :: rest) : Int))
    else none

/-- Value of an unsigned decimal `ipart.fpart` (at least one digit overall). -/
def parseDecCore (ipart fpart : Str) : Option Rat :=
  if ipart = [] ∧ fpart = [] then none
  else if ipart.all Char.isDigit ∧ fpart.all Char.isDigit then
    some ((natFromDigits ipart : Rat) + (natFromDigits fpart : Rat) / (10 ^ fpart.length))
  else none

/-- Longest prefix satisfying a predicate, together with the rest. -/
def spanP (p : Char → Bool) : Str → Str × Str
  | [] => ([], [])
  | c :: cs =>
    if p c then
      let r := spanP p cs
      (c :: r.1, r.2)
    else ([], c :: cs)

/-- Python `float(s)` for an unsigned decimal literal with optional fraction
and exponent.  The model is exact decimal-to-rational conversion; IEEE-754
rounding (and the special literals `inf` and `nan`) are not modelled. -/
def parseFloatPos (s : Str) : Option Rat :=
  let mantExp := spanP (fun c => !(c = 'e' || c = 'E')) s
  let ipSplit := spanP (fun c => !(c = '.')) mantExp.1
  let fpart : Str := match ipSplit.2 with | [] => [] | _ :: t => t
  match mantExp.2 with
  | [] => parseDecCore ipSplit.1 fpart
  | _ :: expStr =>
    match parseDecCore ipSplit.1 fpart, parseIntStr expStr with
    | some b, some e => some (b * (10 : Rat) ^ (e : Int))
    | _, _ => none

/-- Python `float(s)` with optional sign. -/
def parseFloatStr (s : Str) : Option Rat :=
  match s with
  | '-' :: r => (parseFloatPos r).map Neg.neg
  | '+' :: r => parseFloatPos r
  | _ => parseFloatPos s

/-- Python `int(q)` on a finite float value: truncation toward zero. -/
def pyTrunc (q : Rat) : Int := if 0 ≤ q then ⌊q⌋ else ⌈q⌉

/-- One table cell.  The file parser produces strings; `setval` stores the
integers computed by `import_tq_rates` and the float values broadcast by
`setcol`/`setcols` (a Python list is heterogeneous).  A float value is
`none` when it is IEEE NaN, and otherwise an exact rational stand-in for
the double. -/
inductive Cell where
  | str (s : Str)
  | int (n : Int)
  | float (v : Option Rat)
deriving DecidableEq, Repr

/-- Rendering of a cell by Python string formatting.  String and integer
cells are rendered exactly; the decimal formatting Python applies to float
cells is not modelled (no claim exercises it — the verified tables hold
string and integer cells only). -/
def cellRepr : Cell → Str
  | .str s => s
  | .int n => intRepr n
  | .float (some q) => intRepr q.num ++ '/' :: natRepr q.den
  | .float none => toL "nan"

/-- The in-memory state of a `Pedestal` object: the decomposed file path
(`path`, `name`) and the table (`headers`, `names`, `entries`).  The Python
object also carries the dictionaries `cols` and `rows`; they are always
exactly the index maps of `headers` and `names` (built at construction and
never modified afterwards), so the model derives them with `dictIdx` and
`dictSize` below. -/
structure Ped where
  path : Str
  name : Str
  headers : List Str
  names : List Str
  entries : List (List Cell)
deriving DecidableEq, Repr

/-- Index assigned to key `k` by a Python dict built with successive
`update` calls mapping each list element to its position: the last
occurrence wins. -/
def dictIdx (xs : List Str) (k : Str) : Option Nat :=
  xs.enum.foldl (fun acc p => if p.2 = k then some p.1 else acc) none

/-- Number of keys of that dict: the number of distinct elements. -/
def dictSize (xs : List Str) : Nat := xs.dedup.length

/-- Python `countrows` — the size of the `rows` dict. -/
def countrows (p : Ped) : Nat := dictSize p.names

/-- Python `countcols` — the size of the `cols` dict. -/
def countcols (p : Ped) : Nat := dictSize p.headers

/-- Header line written by `writemap`:
`f"{'! Name':12}" + ' '.join([f"{h:^14}" for h in self.headers])`. -/
def headerLine (hs : List Str) : Str :=
  padRight 12 (toL "! Name") ++ joinSp (hs.map (padCenter 14))

/-- Data line written by `writemap`:
`f"{self.names[m]:12}" + " ".join([f"{col:>14}" for col in self.entries[m]])`. -/
def dataLine (name : Str) (cells : List Cell) : Str :=
  padRight 12 name ++ joinSp (cells.map (fun c => padLeft 14 (cellRepr c)))

/-- The lines `writemap` writes: the header line, then one data line for
each `m in range(self.countrows())`. -/
def writemapLines (p : Ped) : List Str :=
  headerLine p.headers ::
    (List.range (countrows p)).map
      (fun m => dataLine (p.names.getD m []) (p.entries.getD m []))

/-- Header stripping performed by the constructor: drop a leading `"!"`
token, then drop a leading `"Name"` token; indexing an empty token list
raises `IndexError` (modelled by `none`). -/
def stripHd : List Str → Option (List Str)
  | [] => none
  | h :: t =>
    match (if h = toL "!" then t else h :: t) with
    | [] => none
    | h2 :: t2 => some (if h2 = toL "Name" then t2 else h2 :: t2)

/-- Data-line loop of the constructor: each line is whitespace-split into
`record`; `record[0]` becomes the row name and `record[1:]` the entry.  A
line with no tokens raises `IndexError` (modelled by `none`). -/
def parseData : List Str → Option (List Str × List (List Str))
  | [] => some ([], [])
  | l :: rest =>
    match splitWS l with
    | [] => none
    | n :: vs =>
      match parseData rest with
      | none => none
      | some (ns, es) => some (n :: ns, vs :: es)

/-- The table-reading part of `Pedestal.__init__`, applied to the lines of
the opened file. -/
def parsePed (path name : Str) (ls : List Str) : Option Ped :=
  match ls with
  | [] => none
  | l0 :: rest =>
    match stripHd (splitWS l0) with
    | none => none
    | some hs =>
      match parseData rest with
      | none => none
      | some (ns, es) => some ⟨path, name, hs, ns, es.map (fun r => r.map Cell.str)⟩

/-- The file-name scanning loop of `Pedestal.__init__`, which walks the
path backwards from index `-5`; `goSplit fp j` examines character position
`j` (equal to `len(fp) + i` for the Python index `i`), returning the
`(path, name)` decomposition. -/
def goSplit (fp : Str) : Nat → Str × Str
  | 0 =>
    if fp.get? 0 = some '/' then (fp.take 1, (fp.take (fp.length - 4)).drop 1)
    else ([], fp.take (fp.length - 4))
  | j + 1 =>
    if fp.get? (j + 1) = some '/' then
      (fp.take (j + 2), (fp.take (fp.length - 4)).drop (j + 2))
    else goSplit fp j

/-- The `(self.path, self.name)` decomposition computed by the constructor
for an accepted file path. -/
def splitPathName (fp : Str) : Str × Str := goSplit fp (fp.length - 5)

/-- Python `setval`: `self.entries[row][col] = val`.  (An out-of-range index
raises `IndexError` in Python; the model leaves the table unchanged there.
Every call the claims reach is in range.) -/
def setval (p : Ped) (row col : Nat) (v : Cell) : Ped :=
  { p with entries := p.entries.set row ((p.entries.getD row []).set col v) }

/-- Errors raised by the mutators. -/
inductive PyErr
  | typeError
  | keyError
deriving DecidableEq, Repr

/-- Python `setcol`: raise `TypeError` on a NaN value (`math.isnan(val)`),
else `setval` on every `row in range(self.countrows())`.  The value is a
float, `none` standing for NaN.  On rejection the returned pair carries the
unchanged table. -/
def setcol (p : Ped) (col : Nat) (v : Option Rat) : Ped × Option PyErr :=
  if v = none then (p, some .typeError)
  else ((List.range (countrows p)).foldl (fun q r => setval q r col (.float v)) p, none)

/-- Column loop of `setcols`: look each name up in the `cols` dict (an
absent name raises `KeyError`) and delegate to `setcol`. -/
def setcolsGo (v : Option Rat) : Ped → List Str → Ped × Option PyErr
  | p, [] => (p, none)
  | p, c :: cs =>
    match dictIdx p.headers c with
    | none => (p, some .keyError)
    | some ci =>
      match setcol p ci v with
      | (p2, none) => setcolsGo v p2 cs
      | (p2, some e) => (p2, some e)

/-- Python `setcols`: raise `TypeError` on a NaN value, else run `setcol`
for each named column. -/
def setcols (p : Ped) (cs : List Str) (v : Option Rat) : Ped × Option PyErr :=
  if v = none then (p, some .typeError) else setcolsGo v p cs

/-- Python format `f"{n:0w}"` on an integer: zero-pad to width `w`, with the
sign in front of the zeros. -/
def intZPad (w : Nat) (n : Int) : Str :=
  if n < 0 then
    '-' :: (List.replicate (w - 1 - (natRepr n.natAbs).length) '0' ++ natRepr n.natAbs)
  else List.replicate (w - (natRepr n.toNat).length) '0' ++ natRepr n.toNat

/-- Tile-code decoding inlined in the loop of `Pedestal.import_tq_rates`:
`flush = tile[:2]`, `num = int(tile[2:4])`, `segment = 2*num` when
`flush == '11'` else `2*num - 1`, `ring = tile[4]`, `pos = tile[5]`,
`detector = "TQ" + f"{segment:02}" + "_R" + ring` plus `'L'`/`'C'`/`'R'`
for `pos` `'1'`/`'2'`/`'3'`.  A short tile (`IndexError`) or non-numeric
`tile[2:4]` (`ValueError`) is an uncaught exception, modelled by `none`. -/
def tqDetName (tile : Str) : Option Str :=
  match parseIntStr ((tile.drop 2).take 2), tile.get? 4, tile.get? 5 with
  | some num, some ring, some pos =>
    let segment : Int := if tile.take 2 = toL "11" then 2 * num else 2 * num - 1
    some (toL "TQ" ++ intZPad 2 segment ++ toL "_R" ++ [ring] ++
      (if pos = '1' then ['L'] else if pos = '2' then ['C']
       else if pos = '3' then ['R'] else []))
  | _, _, _ => none

/-- The same decoding as duplicated in `tq_weights.py` (`r5weights`,
`r2weights`, `r5otcweights`), which emits the lowercase form
`"tq" + f"{segment:02}" + "_r" + ring` with suffix `'l'`/`'c'`/`'r'`. -/
def tqwDetName (tile : Str) : Option Str :=
  match parseIntStr ((tile.drop 2).take 2), tile.get? 4, tile.get? 5 with
  | some num, some ring, some pos =>
    let segment : Int := if tile.take 2 = toL "11" then 2 * num else 2 * num - 1
    some (toL "tq" ++ intZPad 2 segment ++ toL "_r" ++ [ring] ++
      (if pos = '1' then ['l'] else if pos = '2' then ['c']
       else if pos = '3' then ['r'] else []))
  | _, _, _ => none

/-- One CSV record as `import_tq_rates` reads it: the `"tile"` field and the
`"Average Rate [GHz]"` field (still a string, converted with `float`). -/
structure CsvRow where
  tile : Str
  rate : Str
deriving DecidableEq, Repr

/-- Outcome of `import_tq_rates`. -/
inductive ImpResult
  | ok        -- prints "Import successful."
  | keyError  -- `KeyError` caught: prints "Import failed." and returns
  | crash     -- an exception other than `KeyError` propagates uncaught
deriving DecidableEq, Repr

/-- The `"NormRate(Hz/uA)"` column name. -/
def normRateCol : Str := toL "NormRate(Hz/uA)"

/-- Loop of `Pedestal.import_tq_rates` over the CSV records: decode the
tile, convert the rate (`int(float(rate) * 10**9 / current)` with the local
`current = 65`), then `setval` at the indices given by the `rows` and
`cols` dicts; a `KeyError` from either lookup is caught and aborts the
import, keeping the cells already written. -/
def importTq (p : Ped) : List CsvRow → Ped × ImpResult
  | [] => (p, .ok)
  | r :: rest =>
    match tqDetName r.tile with
    | none => (p, .crash)
    | some det =>
      match parseFloatStr r.rate with
      | none => (p, .crash)
      | some q =>
        let rate : Int := pyTrunc (q * 10 ^ 9 / 65)
        match dictIdx p.names det, dictIdx p.headers normRateCol with
        | some ri, some ci => importTq (setval p ri ci (.int rate)) rest
        | _, _ => (p, .keyError)

/-- Cell addressed by row name and column name through the `rows` and
`cols` dicts: `self.entries[self.rows[row]][self.cols[col]]`. -/
def getCellRC (p : Ped) (row col : Str) : Option Cell :=
  match dictIdx p.names row, dictIdx p.headers col with
  | some ri, some ci => (p.entries.getD ri []).get? ci
  | _, _ => none

/-- Python `float(cell)`. -/
def pyFloatOfCell : Cell → Option Rat
  | .str s => parseFloatStr s
  | .int n => some (n : Rat)
  | .float v => v

/-- Python `int(cell)`. -/
def pyIntOfCell : Cell → Option Int
  | .str s => parseIntStr s
  | .int n => some n
  | .float (some q) => some (pyTrunc q)
  | .float none => none

/-- Python `voltperhz`:
`float(self.entries[self.rows[row]][self.cols['VoltPerHz']])`. -/
def voltperhz (p : Ped) (row : Str) : Option Rat :=
  (getCellRC p row (toL "VoltPerHz")).bind pyFloatOfCell

/-- Python `normrate`:
`int(self.entries[self.rows[row]][self.cols['NormRate(Hz/uA)']])`. -/
def normrate (p : Ped) (row : Str) : Option Int :=
  (getCellRC p row normRateCol).bind pyIntOfCell

/-- Module constant `milli = 1e-3`. -/
def milli : Rat := 1 / 1000

/-- Module constant `current = 100  # 100 uA` (the assignment `current = 65`
inside `import_tq_rates` is a function-local variable and does not change
it). -/
def beamCurrent : Rat := 100

/-- Module constant `num_samples = 15_000`. -/
def numSamples : Nat := 15000

/-- Module constant `time = 2 * milli`. -/
def timeWindow : Rat := 2 * milli

/-- Python `hwsum`: `mean = self.voltperhz(row) * self.normrate(row) *
current` and `stddev = math.sqrt(num_samples) * self.voltperhz(row) /
time`; `none` when a lookup or conversion raises. -/
noncomputable def hwsum (p : Ped) (row : Str) : Option (Rat × Real) :=
  match voltperhz p row, normrate p row with
  | some v, some n =>
    some (v * n * beamCurrent, Real.sqrt numSamples * (v : Real) / (timeWindow : Real))
  | _, _ => none

/-- The file system: a list of files, each a path paired with its lines. -/
abbrev FS := List (Str × List Str)

/-- Python `os.path.isfile`. -/
def isfile (fs : FS) (p : Str) : Bool := fs.any (fun e => e.1 = p)

/-- Content of a file. -/
def fsGet (fs : FS) (p : Str) : Option (List Str) :=
  (fs.find? (fun e => e.1 = p)).map (fun e => e.2)

/-- Python `os.remove` (when it works). -/
def fsRemove (fs : FS) (p : Str) : FS := fs.filter (fun e => !(e.1 = p))

/-- Creating or overwriting a file. -/
def fsWrite (fs : FS) (p : Str) (c : List Str) : FS := fsRemove fs p ++ [(p, c)]

/-- How a call to `Pedestal.save` ends. -/
inductive SaveOutcome
  | success         -- prints "Save successful." and returns
  | caughtError     -- a RuntimeError was raised; `except RuntimeError` prints and returns
  | uncaughtWarning -- a RuntimeWarning was raised; `except RuntimeError` does NOT catch it
  | osError         -- an OSError escaped from `os.rename` (uncaught)
deriving DecidableEq, Repr

/-- `Pedestal.save`.  `removeWorks` models the environment: whether the
`os.remove` call actually removes the backup (the code re-checks with
`os.path.isfile` afterwards and raises `RuntimeWarning` when the backup is
still there).  Renames and writes always succeed in the model, so the
restore branch of the source (new file missing after `writemap`) is
embedded but unreachable. -/
def save (p : Ped) (removeWorks : Bool) (fs : FS) : FS × SaveOutcome :=
  let currentfile := p.path ++ p.name ++ toL ".map"
  let oldfile := p.path ++ p.name ++ toL "_old.map"
  if isfile fs oldfile then (fs, .caughtError)
  else
    match fsGet fs currentfile with
    | none => (fs, .osError)
    | some content =>
      let fs1 := fsWrite (fsRemove fs currentfile) oldfile content
      if isfile fs1 oldfile && !isfile fs1 currentfile then
        let fs2 := fsWrite fs1 currentfile (writemapLines p)
        if isfile fs2 currentfile then
          let fs3 := if removeWorks then fsRemove fs2 oldfile else fs2
          if isfile fs3 oldfile then (fs3, .uncaughtWarning) else (fs3, .success)
        else
          (fsWrite (fsRemove fs2 oldfile) currentfile content, .caughtError)
      else (fs1, .caughtError)

/-- Validation errors of the constructor. -/
inductive CtorErr
  | badPath   -- fewer than 5 characters
  | badExt    -- does not end in ".map"
  | missing   -- no such file
  | parseFail -- IndexError while reading the header or a data line
deriving DecidableEq, Repr

/-- `Pedestal.__init__`: validate length, extension and existence, split
the path, then parse the file. -/
def pedInit (filepath : Str) (fs : FS) : Except CtorErr Ped :=
  if filepath.length < 5 then .error .badPath
  else if filepath.drop (filepath.length - 4) ≠ toL ".map" then .error .badExt
  else
    match fsGet fs filepath with
    | none => .error .missing
    | some ls =>
      match parsePed (splitPathName filepath).1 (splitPathName filepath).2 ls with
      | none => .error .parseFail
      | some p => .ok p

/-- A cell that holds a printable string token. -/
def isStrTok : Cell → Bool
  | .str s => isTok s
  | _ => false

/-- A written data line tokenizes back into its fields unless the row name
fills its whole 12-character field and the first value fills its whole
14-character field (then nothing separates them).  `rowFitsB` rules the
merged case out. -/
def rowFitsB (n : Str) (cells : List Cell) : Bool :=
  decide (n.length < 12) ||
    (match cells with
     | [] => true
     | c :: _ => decide ((cellRepr c).length < 14))

theorem splitWSAux_tok_ws {n : Str} (hn : isTok n = true) (m : Nat) (J : Str) :
    splitWSAux (n ++ (List.replicate (m + 1) ' ' ++ J)) [] = n :: splitWSAux J [] := by
  rw [splitWSAux_accum (isTok_noWS hn)]
  simp only [List.append_nil]
  rw [splitWSAux_flush (by simpa using isTok_ne_nil hn) (replicate_space_ws (m + 1))
    (by simp) J]
  simp

/-- Padded with `padLeft`, a string splits into whitespace, itself,
whitespace. -/
theorem padLeft_split (n : Nat) (s : Str) :
    ∃ w1 w2, (∀ c ∈ w1, pyWS c = true) ∧ (∀ c ∈ w2, pyWS c = true) ∧
      padLeft n s = w1 ++ s ++ w2 :=
  ⟨List.replicate (n - s.length) ' ', [], replicate_space_ws _, by simp,
    by simp [padLeft]⟩

/-- Padded with `padCenter`, a string splits into whitespace, itself,
whitespace. -/
theorem padCenter_split (n : Nat) (s : Str) :
    ∃ w1 w2, (∀ c ∈ w1, pyWS c = true) ∧ (∀ c ∈ w2, pyWS c = true) ∧
      padCenter n s = w1 ++ s ++ w2 :=
  ⟨List.replicate ((n - s.length) / 2) ' ',
    List.replicate (n - s.length - (n - s.length) / 2) ' ',
    replicate_space_ws _, replicate_space_ws _, by simp [padCenter]⟩

/-- Tokenizing the written header line yields `"!"`, `"Name"`, then the
column headers. -/
theorem splitWS_headerLine {hs : List Str} (hh : ∀ h ∈ hs, isTok h = true) :
    splitWS (headerLine hs) = toL "!" :: toL "Name" :: hs := by
  have h0 : headerLine hs =
      '!' :: ' ' :: (toL "Name" ++ (List.replicate 6 ' ' ++
        joinSp (hs.map (padCenter 14)))) := by
    simp [headerLine, padRight, toL]
  rw [splitWS, h0]
  have h1 : splitWSAux ('!' :: ' ' :: (toL "Name" ++ (List.replicate 6 ' ' ++
      joinSp (hs.map (padCenter 14))))) [] =
      toL "!" :: splitWSAux (toL "Name" ++ (List.replicate 6 ' ' ++
        joinSp (hs.map (padCenter 14)))) [] := by
    simp [splitWSAux, pyWS, toL]
  rw [h1, splitWSAux_tok_ws (n := toL "Name") (by decide) 5,
    splitWS_joinSp_pads (padCenter 14) hs hh (fun t _ => padCenter_split 14 t)]

/-- Tokenizing a written data line yields the row name then the rendered
cells, provided the name and first cell do not both fill their fields. -/
theorem splitWS_dataLine {n : Str} {cells : List Cell} (hn : isTok n = true)
    (hc : ∀ c ∈ cells, isTok (cellRepr c) = true)
    (hfit : rowFitsB n cells = true) :
    splitWS (dataLine n cells) = n :: cells.map cellRepr := by
  have hjoin : splitWSAux (joinSp ((cells.map cellRepr).map (padLeft 14))) [] =
      cells.map cellRepr :=
    splitWS_joinSp_pads (padLeft 14) (cells.map cellRepr)
      (fun t ht => by obtain ⟨c, hcm, rfl⟩ := List.mem_map.mp ht; exact hc c hcm)
      (fun t _ => padLeft_split 14 t)
  have hmm : cells.map (fun c => padLeft 14 (cellRepr c)) =
      (cells.map cellRepr).map (padLeft 14) := by simp
  rw [splitWS, dataLine, hmm]
  by_cases h12 : n.length < 12
  · obtain ⟨k, hk⟩ : ∃ k, 12 - n.length = k + 1 := ⟨11 - n.length, by omega⟩
    rw [padRight, hk, List.append_assoc, splitWSAux_tok_ws hn k, hjoin]
  · have h0 : 12 - n.length = 0 := Nat.sub_eq_zero_of_le (Nat.le_of_not_lt h12)
    have hpr : padRight 12 n = n := by simp [padRight, h0]
    rw [hpr]
    cases cells with
    | nil =>
      simpa [joinSp] using splitWS_block_end hn (w := []) (by simp)
    | cons c cs =>
      have hlt : (cellRepr c).length < 14 := by
        simp only [rowFitsB, Bool.or_eq_true, decide_eq_true_eq] at hfit
        rcases hfit with h | h
        exacts [absurd h h12, h]
      obtain ⟨k, hk⟩ : ∃ k, 14 - (cellRepr c).length = k + 1 :=
        ⟨13 - (cellRepr c).length, by omega⟩
      have hJ : ∃ J, joinSp (((c :: cs).map cellRepr).map (padLeft 14)) =
          List.replicate (k + 1) ' ' ++ J := by
        cases cs with
        | nil => exact ⟨cellRepr c, by simp [joinSp, padLeft, hk]⟩
        | cons a as =>
          refine ⟨cellRepr c ++ ' ' ::
            joinSp (((a :: as).map cellRepr).map (padLeft 14)), ?_⟩
          simp [joinSp, padLeft, hk]
      obtain ⟨J, hJ⟩ := hJ
      rw [hJ, splitWSAux_tok_ws hn k]
      rw [hJ, splitWSAux_ws_skip (replicate_space_ws (k + 1))] at hjoin
      rw [hjoin]

/-- Reading back the rendered data lines of parallel name and entry lists
recovers the names and the rendered cells. -/
theorem parseData_dataLines :
    ∀ (ns : List Str) (es : List (List Cell)), ns.length = es.length →
    (∀ x ∈ ns, isTok x = true) →
    (∀ r ∈ es, ∀ c ∈ r, isTok (cellRepr c) = true) →
    (∀ pr ∈ ns.zip es, rowFitsB pr.1 pr.2 = true) →
    parseData ((ns.zip es).map (fun pr => dataLine pr.1 pr.2)) =
      some (ns, es.map (fun r => r.map cellRepr)) := by
  intro ns
  induction ns with
  | nil =>
    intro es hlen _ _ _
    have : es = [] := by
      cases es with
      | nil => rfl
      | cons e es => simp at hlen
    subst this
    rfl
  | cons x ns ih =>
    intro es hlen hn hc hfit
    cases es with
    | nil => simp at hlen
    | cons e es =>
      have hsplit : splitWS (dataLine x e) = x :: e.map cellRepr :=
        splitWS_dataLine (hn x (by simp))
          (fun c hcm => hc e (by simp) c hcm)
          (hfit (x, e) (by simp))
      have hrec := ih es (by simpa using hlen)
        (fun y hy => hn y (by simp [hy]))
        (fun r hr c hcm => hc r (by simp [hr]) c hcm)
        (fun pr hpr => hfit pr (by simp [hpr]))
      simp only [List.zip_cons_cons, List.map_cons, parseData]
      rw [hsplit]
      rw [show List.zipWith Prod.mk ns es = ns.zip es from rfl, hrec]

/-- Writing `m in range(len(as))` with positional lookups is the same as
mapping over the zip of the two parallel lists. -/
theorem range_map_getD_zip {α β γ : Type} (da : α) (db : β) (f : α → β → γ) :
    ∀ (as : List α) (bs : List β), as.length = bs.length →
    (List.range as.length).map (fun m => f (as.getD m da) (bs.getD m db)) =
      (as.zip bs).map (fun pr => f pr.1 pr.2) := by
  intro as
  induction as with
  | nil => intro bs _; rfl
  | cons a as ih =>
    intro bs hlen
    cases bs with
    | nil => simp at hlen
    | cons b bs =>
      simp only [List.length_cons, List.range_succ_eq_map, List.map_cons,
        List.map_map, List.zip_cons_cons]
      congr 1
      have hfun : ((fun m => f ((a :: as).getD m da) ((b :: bs).getD m db)) ∘ Nat.succ) =
          (fun m => f (as.getD m da) (bs.getD m db)) := by
        funext m
        simp
      rw [hfun]
      exact ih bs (by simpa using hlen)

/-- Re-wrapping the rendered cells of an all-string row restores the row. -/
theorem map_str_cellRepr {r : List Cell} (h : ∀ c ∈ r, isStrTok c = true) :
    (r.map cellRepr).map Cell.str = r := by
  induction r with
  | nil => rfl
  | cons c cs ih =>
    have hc := h c (by simp)
    have hcs := ih (fun x hx => h x (by simp [hx]))
    cases c with
    | str s => simp [cellRepr, hcs]
    | int n => simp [isStrTok] at hc
    | float v => simp [isStrTok] at hc

/-- C1 (amended): writing a table with `writemap` and parsing the written
file as the constructor does reproduces the identical table — provided the
header names, row names and cell values are non-empty ASCII strings without
whitespace, the row names are distinct (the class invariant; `writemap`
writes only `len(self.rows)` dict-keyed rows), the entry list is parallel
to the name list, and no row has both a name filling its 12-character field
and a first cell filling its 14-character field (such a pair is written
with no separator between them and reads back as one merged token). -/
theorem c1_roundtrip_amended (p : Ped)
    (hh : ∀ h ∈ p.headers, isTok h = true)
    (hn : ∀ n ∈ p.names, isTok n = true)
    (hc : ∀ r ∈ p.entries, ∀ c ∈ r, isStrTok c = true)
    (hnd : p.names.Nodup)
    (hlen : p.entries.length = p.names.length)
    (hfit : ∀ pr ∈ p.names.zip p.entries, rowFitsB pr.1 pr.2 = true) :
    parsePed p.path p.name (writemapLines p) = some p := by
  have hcr : countrows p = p.names.length := by
    simp [countrows, dictSize, List.dedup_eq_self.mpr hnd]
  have hctok : ∀ r ∈ p.entries, ∀ c ∈ r, isTok (cellRepr c) = true := by
    intro r hr c hcm
    have h := hc r hr c hcm
    cases c with
    | str s => simpa [cellRepr, isStrTok] using h
    | int n => simp [isStrTok] at h
    | float v => simp [isStrTok] at h
  have hdata : (List.range (countrows p)).map
      (fun m => dataLine (p.names.getD m []) (p.entries.getD m [])) =
      (p.names.zip p.entries).map (fun pr => dataLine pr.1 pr.2) := by
    rw [hcr]
    exact range_map_getD_zip [] [] dataLine p.names p.entries hlen.symm
  have hpd := parseData_dataLines p.names p.entries hlen.symm hn hctok hfit
  have hstrip : stripHd (toL "!" :: toL "Name" :: p.headers) = some p.headers := by
    simp [stripHd]
  have hback : (p.entries.map (fun r => r.map cellRepr)).map
      (fun r => r.map Cell.str) = p.entries := by
    rw [List.map_map]
    have h2 : p.entries.map ((fun r => r.map Cell.str) ∘ (fun r => r.map cellRepr)) =
        p.entries.map id :=
      List.map_congr_left (fun r hr => by simpa using map_str_cellRepr (hc r hr))
    simpa using h2
  rw [writemapLines, hdata]
  simp only [parsePed, splitWS_headerLine hh, hstrip, hpd, hback]

/-- A table that satisfies every condition of C1 as stated — all header
names, row names and cell values are non-empty whitespace-free strings —
but whose single row has a 12-character name and a 14-character first cell:
`writemap` renders that row as `AAAAAAAAAAAABBBBBBBBBBBBBB` with no
separator, so parsing the written file does not reproduce the table. -/
def c1Merge : Ped :=
  ⟨[], toL "f", [toL "H"], [toL "AAAAAAAAAAAA"], [[.str (toL "BBBBBBBBBBBBBB")]]⟩

/-- C1 counterexample: the claimed round-trip fails on `c1Merge`. -/
theorem c1_counterexample :
    (∀ h ∈ c1Merge.headers, isTok h = true) ∧
    (∀ n ∈ c1Merge.names, isTok n = true) ∧
    (∀ r ∈ c1Merge.entries, ∀ c ∈ r, isStrTok c = true) ∧
    c1Merge.names.Nodup ∧ c1Merge.entries.length = c1Merge.names.length ∧
    parsePed c1Merge.path c1Merge.name (writemapLines c1Merge) ≠ some c1Merge := by
  exact ⟨by decide, by decide, by decide, by decide, by decide, by decide⟩

/-- A concrete well-formed table for the C1 witness. -/
def c1Table : Ped :=
  ⟨toL "dir/", toL "ped", [toL "Gain", toL "VoltPerHz"],
    [toL "TQ01_R1", toL "TQ02_R1"],
    [[.str (toL "1.0"), .str (toL "7.5e-08")], [.str (toL "2.0"), .str (toL "8e-08")]]⟩

/-- C1 witness: the amended round-trip at a concrete table. -/
theorem c1_roundtrip_witness :
    (∀ h ∈ c1Table.headers, isTok h = true) ∧
    (∀ n ∈ c1Table.names, isTok n = true) ∧
    (∀ r ∈ c1Table.entries, ∀ c ∈ r, isStrTok c = true) ∧
    c1Table.names.Nodup ∧
    c1Table.entries.length = c1Table.names.length ∧
    (∀ pr ∈ c1Table.names.zip c1Table.entries, rowFitsB pr.1 pr.2 = true) ∧
    parsePed c1Table.path c1Table.name (writemapLines c1Table) = some c1Table :=
  ⟨by decide, by decide, by decide, by decide, by decide, by decide,
    c1_roundtrip_amended c1Table (by decide) (by decide) (by decide) (by decide)
      (by decide) (by decide)⟩

/-- Parsing a two-digit string gives its decimal value. -/
theorem parseIntStr_two_digits {a b : Char} (ha : a.isDigit = true) (hb : b.isDigit = true) :
    parseIntStr [a, b] = some ((digVal a * 10 + digVal b : Nat) : Int) := by
  have hna : a ≠ '-' := by rintro rfl; exact absurd ha (by decide)
  have hnp : a ≠ '+' := by rintro rfl; exact absurd ha (by decide)
  simp [parseIntStr, hna, hnp, ha, hb, natFromDigits, digVal]

/-- Segment number as the spec describes the tile-code algorithm: `2*NN`
for back-flush (`FF == "11"`), `2*NN - 1` for front-flush.  (Stated from
the spec's words, for comparison with the decoding embedded from the
source.) -/
def specSegment (ff : Str) (nn : Int) : Int :=
  if ff = toL "11" then 2 * nn else 2 * nn - 1

/-- Position suffix as the spec describes it, uppercase form:
`'1' → "L"`, `'2' → "C"`, `'3' → "R"`, anything else (in particular `'0'`)
→ no suffix. -/
def specSuffixU (pp : Char) : Str :=
  if pp = '1' then toL "L" else if pp = '2' then toL "C"
  else if pp = '3' then toL "R" else []

/-- The same position suffix in the lowercase form `tq_weights.py` emits. -/
def specSuffixL (pp : Char) : Str :=
  if pp = '1' then toL "l" else if pp = '2' then toL "c"
  else if pp = '3' then toL "r" else []

/-- C2 (amended): on every six-character tile code `FFNNRP` with
`FF ∈ {"15", "11"}` and `NN` two digits, the decoding in
`import_tq_rates` is the pure function
`"TQ" + zero-padded(segment) + "_R" + R + suffix` with
`segment = 2*NN` iff `FF == "11"` and suffix `L`/`C`/`R` for `P` equal to
`'1'`/`'2'`/`'3'` (else none); the copy of the decoding in `tq_weights.py`
produces the same name in lowercase (`"tq…_r…"` with suffix
`l`/`c`/`r`), not the uppercase form the claim states. -/
theorem c2_decode_amended (f2 d1 d2 r pp : Char) (_hf : f2 = '5' ∨ f2 = '1')
    (hd1 : d1.isDigit = true) (hd2 : d2.isDigit = true) :
    tqDetName ['1', f2, d1, d2, r, pp] =
      some (toL "TQ" ++
        intZPad 2 (specSegment ['1', f2] ((digVal d1 * 10 + digVal d2 : Nat) : Int)) ++
        toL "_R" ++ [r] ++ specSuffixU pp) ∧
    tqwDetName ['1', f2, d1, d2, r, pp] =
      some (toL "tq" ++
        intZPad 2 (specSegment ['1', f2] ((digVal d1 * 10 + digVal d2 : Nat) : Int)) ++
        toL "_r" ++ [r] ++ specSuffixL pp) := by
  have hp : parseIntStr ((['1', f2, d1, d2, r, pp].drop 2).take 2) =
      some ((digVal d1 * 10 + digVal d2 : Nat) : Int) := by
    simpa using parseIntStr_two_digits hd1 hd2
  constructor
  · simp only [tqDetName, hp, List.get?]
    simp [specSegment, specSuffixU, toL]
  · simp only [tqwDetName, hp, List.get?]
    simp [specSegment, specSuffixL, toL]

/-- C2 witness: the amended statement at the concrete code `"110851"`. -/
theorem c2_decode_witness :
    (('1' : Char) = '5' ∨ ('1' : Char) = '1') ∧ Char.isDigit '0' = true ∧
    Char.isDigit '8' = true ∧
    tqDetName ['1', '1', '0', '8', '5', '1'] =
      some (toL "TQ" ++
        intZPad 2 (specSegment ['1', '1'] ((digVal '0' * 10 + digVal '8' : Nat) : Int)) ++
        toL "_R" ++ ['5'] ++ specSuffixU '1') ∧
    tqwDetName ['1', '1', '0', '8', '5', '1'] =
      some (toL "tq" ++
        intZPad 2 (specSegment ['1', '1'] ((digVal '0' * 10 + digVal '8' : Nat) : Int)) ++
        toL "_r" ++ ['5'] ++ specSuffixL '1') :=
  ⟨by decide, by decide, by decide,
    (c2_decode_amended '1' '0' '8' '5' '1' (by decide) (by decide) (by decide)).1,
    (c2_decode_amended '1' '0' '8' '5' '1' (by decide) (by decide) (by decide)).2⟩

/-- C2 counterexample: the decoding reproduced in `tq_weights.py` does not
produce the uppercase detector name the claim states; on the code
`"110851"` it produces `"tq16_r5l"`, not `"TQ16_R5L"`. -/
theorem c2_counterexample :
    tqwDetName (toL "110851") = some (toL "tq16_r5l") ∧
    tqwDetName (toL "110851") ≠ some (toL "TQ16_R5L") := by
  exact ⟨by decide, by decide⟩

/-- C4 counterexample: decoding the tile code `"151220"` does not yield
`"TQ21_R2"`; it yields `"TQ23_R2"` (front flush: segment `2*12 - 1 = 23`,
not `21`). -/
theorem c4_counterexample :
    tqDetName (toL "151220") = some (toL "TQ23_R2") ∧
    tqDetName (toL "151220") ≠ some (toL "TQ21_R2") := by
  exact ⟨by decide, by decide⟩

/-- A one-row table whose row name is the decoding of tile `"151220"`. -/
def c4Table : Ped :=
  ⟨[], toL "t", [normRateCol], [toL "TQ23_R2"], [[.str (toL "100")]]⟩

/-- C4 (amended): decoding the tile code `"151220"` yields the detector
name `"TQ23_R2"` (segment `2*12 - 1 = 23`, ring 2, no position suffix),
and `import_tq_rates` maps a CSV row with tile `"151220"` (rate 1.3 GHz)
onto the table row named `"TQ23_R2"`, overwriting its
`"NormRate(Hz/uA)"` cell with `int(1.3e9 / 65) = 20000000`. -/
theorem c4_decode_amended :
    tqDetName (toL "151220") = some (toL "TQ23_R2") ∧
    importTq c4Table [⟨toL "151220", toL "1.3"⟩] =
      (⟨[], toL "t", [normRateCol], [toL "TQ23_R2"], [[.int 20000000]]⟩, .ok) := by
  have hdet : tqDetName (toL "151220") = some (toL "TQ23_R2") := by decide
  refine ⟨hdet, ?_⟩
  have hr : parseFloatStr (toL "1.3") = some ((13 : Rat) / 10) := by
    have h : parseFloatStr (toL "1.3") = parseDecCore ['1'] ['3'] := rfl
    have d1 : natFromDigits ['1'] = 1 := by decide
    have d3 : natFromDigits ['3'] = 3 := by decide
    have i1 : ('1').isDigit = true := by decide
    have i3 : ('3').isDigit = true := by decide
    rw [h]
    simp only [parseDecCore, d1, d3, i1, i3]
    norm_num
    intro hcon
    exact absurd i3 (by simp [hcon i1])
  have hrow : dictIdx c4Table.names (toL "TQ23_R2") = some 0 := by decide
  have hcol : dictIdx c4Table.headers normRateCol = some 0 := by decide
  have hpt : pyTrunc ((13 : Rat) / 10 * 10 ^ 9 / 65) = 20000000 := by norm_num [pyTrunc]
  simp only [importTq, hdet, hr, hrow, hcol, hpt]
  decide

/-- C3: when the backup file `<path><name>_old.map` already exists, `save`
aborts at its very first check with a RuntimeError that the `except` clause
catches: the file system is returned exactly as it was — the current file
is not renamed, nothing is written or deleted, and both the backup and the
current file are unchanged. -/
theorem c3_save_aborts_on_stale_backup (p : Ped) (rmOk : Bool) (fs : FS)
    (h : isfile fs (p.path ++ p.name ++ toL "_old.map") = true) :
    save p rmOk fs = (fs, .caughtError) := by
  have h2 : isfile fs (p.path ++ (p.name ++ toL "_old.map")) = true := by
    simpa using h
  simp [save, h2]

/-- A pedestal and file system with a stale backup present. -/
def c3Ped : Ped := ⟨[], toL "f", [toL "H"], [toL "x"], [[.str (toL "1")]]⟩

/-- File system for the C3 witness: current file and stale backup. -/
def c3FS : FS := [(toL "f.map", [toL "a"]), (toL "f_old.map", [toL "b"])]

/-- C3 witness: the abort at a concrete state. -/
theorem c3_save_witness :
    isfile c3FS (c3Ped.path ++ c3Ped.name ++ toL "_old.map") = true ∧
    save c3Ped true c3FS = (c3FS, .caughtError) :=
  ⟨by decide, c3_save_aborts_on_stale_backup c3Ped true c3FS (by decide)⟩

/-- Pedestal for the C5 failing input. -/
def c5Ped : Ped := ⟨[], toL "f", [toL "H"], [toL "r1"], [[.str (toL "1")]]⟩

/-- File system for the C5 failing input: only the current file exists. -/
def c5FS : FS := [(toL "f.map", [toL "old"])]

/-- C5: evaluating `save` at a state where everything succeeds until the
backup removal fails (the backup still exists after `os.remove`).  The new
file is in place and the code raises `RuntimeWarning` — but `except
RuntimeError` does not catch `RuntimeWarning`, so `save` propagates the
exception to the caller instead of returning normally as the spec
describes. -/
theorem c5_remove_failure_raises :
    save c5Ped false c5FS =
      ([(toL "f_old.map", [toL "old"]), (toL "f.map", writemapLines c5Ped)],
        .uncaughtWarning) ∧
    fsGet (save c5Ped false c5FS).1 (toL "f.map") = some (writemapLines c5Ped) ∧
    SaveOutcome.uncaughtWarning ≠ SaveOutcome.success := by
  exact ⟨by decide, by decide, by decide⟩

/-- C7: `setcol` called with a NaN value raises `TypeError` before any row
is written, leaving every cell of the table unmodified, and `setcols`
rejects in the same way before touching any column. -/
theorem c7_setcol_nan_rejected (p : Ped) (col : Nat) (cs : List Str) :
    setcol p col none = (p, some .typeError) ∧
    setcols p cs none = (p, some .typeError) := by
  exact ⟨by simp [setcol], by simp [setcols]⟩

/-- `setval` never touches the name list or the header list. -/
theorem setval_names (p : Ped) (r c : Nat) (v : Cell) :
    (setval p r c v).names = p.names := rfl

/-- `setval` never touches the header list. -/
theorem setval_headers (p : Ped) (r c : Nat) (v : Cell) :
    (setval p r c v).headers = p.headers := rfl

/-- The import loop never touches the name list or the header list. -/
theorem importTq_keeps_names_headers (rs : List CsvRow) :
    ∀ p : Ped, (importTq p rs).1.names = p.names ∧ (importTq p rs).1.headers = p.headers := by
  induction rs with
  | nil => exact fun p => ⟨rfl, rfl⟩
  | cons r rest ih =>
    intro p
    cases htq : tqDetName r.tile with
    | none => simp [importTq, htq]
    | some det =>
      cases hpr : parseFloatStr r.rate with
      | none => simp [importTq, htq, hpr]
      | some q =>
        cases hrow : dictIdx p.names det with
        | none =>
          cases hcol : dictIdx p.headers normRateCol <;>
            simp [importTq, htq, hpr, hrow, hcol]
        | some ri =>
          cases hcol : dictIdx p.headers normRateCol with
          | none => simp [importTq, htq, hpr, hrow, hcol]
          | some ci =>
            have h := ih (setval p ri ci (.int (pyTrunc (q * 10 ^ 9 / 65))))
            simpa [importTq, htq, hpr, hrow, hcol, setval_names, setval_headers] using h

/-- C6: when every record of `pre` decodes to a name present in the table
(and the rate column exists), and the next record decodes successfully to a
name with no matching row — or the rate column is missing — the import
stops there with the caught KeyError: the final table is exactly the table
after processing `pre` alone, so nothing is written for the failing record
or for any later record, while the cells `pre` overwrote stay overwritten
(no rollback). -/
theorem c6_import_failfast (pre : List CsvRow) (post : List CsvRow) (bad : CsvRow)
    (det : Str) :
    ∀ p : Ped,
    (∀ r ∈ pre, ∃ d ri ci, tqDetName r.tile = some d ∧
      (parseFloatStr r.rate).isSome = true ∧
      dictIdx p.names d = some ri ∧ dictIdx p.headers normRateCol = some ci) →
    tqDetName bad.tile = some det →
    (parseFloatStr bad.rate).isSome = true →
    (dictIdx p.names det = none ∨ dictIdx p.headers normRateCol = none) →
    importTq p (pre ++ bad :: post) = ((importTq p pre).1, .keyError) := by
  induction pre with
  | nil =>
    intro p _ hdet hq hbad
    obtain ⟨q, hq2⟩ := Option.isSome_iff_exists.mp hq
    simp only [List.nil_append, importTq, hdet, hq2]
    rcases hbad with h | h
    · rw [h]
    · rw [h]
      cases dictIdx p.names det <;> rfl
  | cons r pre ih =>
    intro p hok hdet hq hbad
    obtain ⟨d, ri, ci, hd, hqr, hri, hci⟩ := hok r (by simp)
    obtain ⟨qr, hqr2⟩ := Option.isSome_iff_exists.mp hqr
    simp only [List.cons_append, importTq, hd, hqr2, hri, hci]
    refine ih (setval p ri ci (.int (pyTrunc (qr * 10 ^ 9 / 65)))) ?_ hdet hq ?_
    · intro x hx
      obtain ⟨d2, ri2, ci2, h1, h2, h3, h4⟩ := hok x (by simp [hx])
      exact ⟨d2, ri2, ci2, h1, h2, by simpa [setval_names] using h3,
        by simpa [setval_headers] using h4⟩
    · simpa [setval_names, setval_headers] using hbad

/-- Table for the C6 witness: one matching row and the rate column. -/
def c6Table : Ped :=
  ⟨[], toL "t", [normRateCol], [toL "TQ01_R1"], [[.str (toL "5")]]⟩

/-- C6 witness: a three-record CSV whose middle record decodes to a name
absent from the table. -/
theorem c6_import_witness :
    (∀ r ∈ [CsvRow.mk (toL "150110") (toL "1.3")], ∃ d ri ci,
      tqDetName r.tile = some d ∧ (parseFloatStr r.rate).isSome = true ∧
      dictIdx c6Table.names d = some ri ∧ dictIdx c6Table.headers normRateCol = some ci) ∧
    tqDetName (CsvRow.mk (toL "150120") (toL "1.3")).tile = some (toL "TQ01_R2") ∧
    (parseFloatStr (CsvRow.mk (toL "150120") (toL "1.3")).rate).isSome = true ∧
    (dictIdx c6Table.names (toL "TQ01_R2") = none ∨
      dictIdx c6Table.headers normRateCol = none) ∧
    importTq c6Table
        ([CsvRow.mk (toL "150110") (toL "1.3")] ++
          CsvRow.mk (toL "150120") (toL "1.3") ::
            [CsvRow.mk (toL "150110") (toL "2.6")]) =
      ((importTq c6Table [CsvRow.mk (toL "150110") (toL "1.3")]).1, .keyError) := by
  refine ⟨?_, by decide, by decide, ?_, ?_⟩
  · intro r hr
    simp only [List.mem_singleton] at hr
    subst hr
    exact ⟨toL "TQ01_R1", 0, 0, by decide, by decide, by decide, by decide⟩
  · exact Or.inl (by decide)
  · refine c6_import_failfast [CsvRow.mk (toL "150110") (toL "1.3")]
      [CsvRow.mk (toL "150110") (toL "2.6")] (CsvRow.mk (toL "150120") (toL "1.3"))
      (toL "TQ01_R2") c6Table ?_ (by decide) (by decide) (Or.inl (by decide))
    intro r hr
    simp only [List.mem_singleton] at hr
    subst hr
    exact ⟨toL "TQ01_R1", 0, 0, by decide, by decide, by decide, by decide⟩

/-- The class invariant stated in the spec: as many entries as keys of the
`rows` dict, every entry as long as the `cols` dict has keys, and distinct
row names. -/
def wfPed (p : Ped) : Prop :=
  p.names.Nodup ∧ p.entries.length = countrows p ∧
    ∀ e ∈ p.entries, e.length = countcols p

/-- The data-line loop produces parallel name and entry lists. -/
theorem parseData_lengths :
    ∀ (ls ns : List Str) (es : List (List Str)),
    parseData ls = some (ns, es) → ns.length = es.length := by
  intro ls
  induction ls with
  | nil =>
    intro ns es h
    simp only [parseData, Option.some.injEq, Prod.mk.injEq] at h
    obtain ⟨h1, h2⟩ := h
    subst h1
    subst h2
    rfl
  | cons l rest ih =>
    intro ns es h
    simp only [parseData] at h
    cases hsp : splitWS l with
    | nil => rw [hsp] at h; exact absurd h (by simp)
    | cons n vs =>
      rw [hsp] at h
      cases hpd : parseData rest with
      | none => rw [hpd] at h; exact absurd h (by simp)
      | some pr =>
        obtain ⟨ns2, es2⟩ := pr
        rw [hpd] at h
        simp only [Option.some.injEq, Prod.mk.injEq] at h
        obtain ⟨h1, h2⟩ := h
        subst h1
        subst h2
        simpa using ih ns2 es2 hpd

/-- What a successful parse pins down: the path and name fields are the
arguments and the name and entry lists are parallel. -/
theorem parsePed_fields {path name : Str} {ls : List Str} {p : Ped}
    (h : parsePed path name ls = some p) :
    p.path = path ∧ p.name = name ∧ p.entries.length = p.names.length := by
  cases ls with
  | nil => exact absurd h (by simp [parsePed])
  | cons l0 rest =>
    simp only [parsePed] at h
    cases hsh : stripHd (splitWS l0) with
    | none => rw [hsh] at h; exact absurd h (by simp)
    | some hs =>
      rw [hsh] at h
      cases hpd : parseData rest with
      | none => rw [hpd] at h; exact absurd h (by simp)
      | some pr =>
        obtain ⟨ns, es⟩ := pr
        rw [hpd] at h
        simp only [Option.some.injEq] at h
        subst h
        exact ⟨rfl, rfl, by simp [(parseData_lengths rest ns es hpd).symm]⟩

/-- A successful construction decomposes into the path validation, the
file lookup and a successful parse at the decomposed path and name. -/
theorem pedInit_some {fp : Str} {fs : FS} {p : Ped} (h : pedInit fp fs = .ok p) :
    ∃ ls, fsGet fs fp = some ls ∧
      parsePed (splitPathName fp).1 (splitPathName fp).2 ls = some p ∧
      5 ≤ fp.length ∧ fp.drop (fp.length - 4) = toL ".map" := by
  simp only [pedInit] at h
  by_cases h5 : fp.length < 5
  · rw [if_pos h5] at h; exact absurd h (by simp)
  · rw [if_neg h5] at h
    by_cases hext : fp.drop (fp.length - 4) ≠ toL ".map"
    · rw [if_pos hext] at h; exact absurd h (by simp)
    · rw [if_neg hext] at h
      push_neg at hext
      cases hget : fsGet fs fp with
      | none => rw [hget] at h; exact absurd h (by simp)
      | some ls =>
        simp only [hget] at h
        cases hpp : parsePed (splitPathName fp).1 (splitPathName fp).2 ls with
        | none => simp only [hpp] at h; exact absurd h (by simp)
        | some p2 =>
          simp only [hpp, Except.ok.injEq] at h
          subst h
          exact ⟨ls, rfl, hpp, Nat.le_of_not_lt h5, hext⟩

/-- `setval` preserves the invariant (including at out-of-range indices,
where the model leaves the table unchanged). -/
theorem wf_setval {p : Ped} (h : wfPed p) (r c : Nat) (v : Cell) :
    wfPed (setval p r c v) := by
  obtain ⟨hnd, hlen, hcells⟩ := h
  refine ⟨hnd, ?_, ?_⟩
  · simpa [setval, countrows] using hlen
  · intro e he
    by_cases hr : r < p.entries.length
    · rcases List.mem_or_eq_of_mem_set (by simpa [setval] using he) with hmem | heq
      · exact hcells e hmem
      · subst heq
        rw [List.length_set]
        refine hcells _ ?_
        have hD : p.entries[r]?.getD [] = p.entries[r] := by
          simp [List.getElem?_eq_getElem hr]
        rw [hD]
        exact List.getElem_mem hr
    · have hset : p.entries.set r ((p.entries.getD r []).set c v) = p.entries :=
        List.set_eq_of_length_le (Nat.le_of_not_lt hr)
      simp only [setval, hset] at he
      exact hcells e he

/-- A fold of `setval` calls preserves the invariant. -/
theorem wf_foldl_setval {c : Nat} {v : Cell} :
    ∀ (l : List Nat) (q : Ped), wfPed q →
      wfPed (l.foldl (fun q r => setval q r c v) q) := by
  intro l
  induction l with
  | nil => exact fun q hq => hq
  | cons r rest ih => exact fun q hq => ih (setval q r c v) (wf_setval hq r c v)

/-- `setcol` preserves the invariant. -/
theorem wf_setcol {p : Ped} (h : wfPed p) (c : Nat) (v : Option Rat) :
    wfPed (setcol p c v).1 := by
  rw [setcol]
  split
  · exact h
  · exact wf_foldl_setval (List.range (countrows p)) p h

/-- `setcols` preserves the invariant. -/
theorem wf_setcols {p : Ped} (h : wfPed p) (cs : List Str) (v : Option Rat) :
    wfPed (setcols p cs v).1 := by
  rw [setcols]
  split
  · exact h
  · rename_i hv
    clear hv
    induction cs generalizing p with
    | nil => exact h
    | cons c rest ih =>
      rw [setcolsGo]
      cases hci : dictIdx p.headers c with
      | none => simpa [hci] using h
      | some ci =>
        have h2 := wf_setcol h ci v
        cases hsc : setcol p ci v with
        | mk p2 e =>
          rw [hsc] at h2
          cases e with
          | none => simpa [hci, hsc] using ih h2
          | some err => simpa [hci, hsc] using h2

/-- `import_tq_rates` preserves the invariant. -/
theorem wf_importTq {rs : List CsvRow} :
    ∀ {p : Ped}, wfPed p → wfPed (importTq p rs).1 := by
  induction rs with
  | nil => exact fun h => h
  | cons r rest ih =>
    intro p h
    cases htq : tqDetName r.tile with
    | none => simpa [importTq, htq] using h
    | some det =>
      cases hpr : parseFloatStr r.rate with
      | none => simpa [importTq, htq, hpr] using h
      | some q =>
        cases hrow : dictIdx p.names det with
        | none =>
          cases hcol : dictIdx p.headers normRateCol <;>
            simpa [importTq, htq, hpr, hrow, hcol] using h
        | some ri =>
          cases hcol : dictIdx p.headers normRateCol with
          | none => simpa [importTq, htq, hpr, hrow, hcol] using h
          | some ci =>
            have h2 := ih (wf_setval h ri ci (.int (pyTrunc (q * 10 ^ 9 / 65))))
            simpa [importTq, htq, hpr, hrow, hcol] using h2

/-- The table the constructor builds from a file whose two data rows share
the row name `x`: the `rows` dict has one key while `entries` has two rows,
breaking the claimed invariant at construction time. -/
def c8Bad : Ped :=
  ⟨[], toL "a", [toL "H"], [toL "x", toL "x"], [[.str (toL "1")], [.str (toL "2")]]⟩

/-- C8 counterexample: the constructor accepts a file with duplicate row
names and the resulting state violates the invariant (`len(entries) = 2`
but `len(rows) = 1`; names not unique). -/
theorem c8_counterexample :
    pedInit (toL "a.map") [(toL "a.map", [toL "! Name H", toL "x 1", toL "x 2"])] =
      .ok c8Bad ∧
    ¬ wfPed c8Bad := by
  constructor
  · rfl
  · unfold wfPed
    decide

/-- C8 (amended): when the constructor-accepted file yields distinct row
names and distinct headers, and every entry has exactly one cell per
header, the constructed state satisfies the invariant — and every mutator
(`setval`, `setcol`, `setcols`, `import_tq_rates`) preserves the invariant
from any state satisfying it, so it holds after every subsequent mutator
call. -/
theorem c8_invariant_amended (fp : Str) (fs : FS) (p : Ped)
    (hinit : pedInit fp fs = .ok p)
    (hnd : p.names.Nodup) (hhd : p.headers.Nodup)
    (harity : ∀ e ∈ p.entries, e.length = p.headers.length) :
    wfPed p ∧
    ∀ q : Ped, wfPed q →
      (∀ r c v, wfPed (setval q r c v)) ∧
      (∀ c v, wfPed (setcol q c v).1) ∧
      (∀ cs v, wfPed (setcols q cs v).1) ∧
      (∀ rs, wfPed (importTq q rs).1) := by
  constructor
  · obtain ⟨ls, _, hpp, _, _⟩ := pedInit_some hinit
    obtain ⟨-, -, hlen⟩ := parsePed_fields hpp
    refine ⟨hnd, ?_, ?_⟩
    · rw [show countrows p = p.names.length from by
        simp [countrows, dictSize, List.dedup_eq_self.mpr hnd]]
      exact hlen
    · intro e he
      rw [show countcols p = p.headers.length from by
        simp [countcols, dictSize, List.dedup_eq_self.mpr hhd]]
      exact harity e he
  · intro q hq
    exact ⟨fun r c v => wf_setval hq r c v, fun c v => wf_setcol hq c v,
      fun cs v => wf_setcols hq cs v, fun rs => wf_importTq hq⟩

/-- File system for the C8 witness. -/
def c8GoodFS : FS := [(toL "b.map", [toL "! Name H", toL "x 1", toL "y 2"])]

/-- Table the constructor builds from `c8GoodFS`. -/
def c8Good : Ped :=
  ⟨[], toL "b", [toL "H"], [toL "x", toL "y"], [[.str (toL "1")], [.str (toL "2")]]⟩

/-- C8 witness: the amended statement at a concrete well-formed file. -/
theorem c8_invariant_witness :
    pedInit (toL "b.map") c8GoodFS = .ok c8Good ∧
    c8Good.names.Nodup ∧ c8Good.headers.Nodup ∧
    (∀ e ∈ c8Good.entries, e.length = c8Good.headers.length) ∧
    (wfPed c8Good ∧
      ∀ q : Ped, wfPed q →
        (∀ r c v, wfPed (setval q r c v)) ∧
        (∀ c v, wfPed (setcol q c v).1) ∧
        (∀ cs v, wfPed (setcols q cs v).1) ∧
        (∀ rs, wfPed (importTq q rs).1)) :=
  ⟨by rfl, by decide, by decide, by decide,
    c8_invariant_amended (toL "b.map") c8GoodFS c8Good (by rfl) (by decide)
      (by decide) (by decide)⟩

/-- C9: for every row present in the table whose `'VoltPerHz'` cell reads
as the float `v` and whose `'NormRate(Hz/uA)'` cell reads as the integer
`n`, `hwsum` returns the pair `(mean, stddev)` with
`mean = v * n * 100` (the module constant `current = 100`) and
`stddev = sqrt(15000) * v / 0.002` (`num_samples = 15_000`,
`time = 2 * milli = 0.002`). -/
theorem c9_hwsum_formula (p : Ped) (row : Str) (v : Rat) (n : Int)
    (hv : voltperhz p row = some v) (hn : normrate p row = some n) :
    hwsum p row = some ((v * n * 100 : Rat),
      Real.sqrt 15000 * (v : Real) / (0.002 : Real)) := by
  simp only [hwsum, hv, hn, Option.some.injEq, Prod.mk.injEq]
  constructor
  · norm_num [beamCurrent]
  · norm_num [numSamples, timeWindow, milli]

/-- Table for the C9 witness: one row, `VoltPerHz = 2`, normrate `3`. -/
def c9Table : Ped :=
  ⟨[], toL "p", [toL "VoltPerHz", normRateCol], [toL "D"],
    [[.str (toL "2"), .str (toL "3")]]⟩

/-- C9 witness: the formula at the concrete table. -/
theorem c9_hwsum_witness :
    voltperhz c9Table (toL "D") = some 2 ∧ normrate c9Table (toL "D") = some 3 ∧
    hwsum c9Table (toL "D") = some (((2 : Rat) * ((3 : Int) : Rat) * 100 : Rat),
      Real.sqrt 15000 * ((2 : Rat) : Real) / (0.002 : Real)) := by
  have hv : voltperhz c9Table (toL "D") = some 2 := by
    have h0 : voltperhz c9Table (toL "D") = parseDecCore ['2'] [] := rfl
    have d2 : natFromDigits ['2'] = 2 := by decide
    have d0 : natFromDigits [] = 0 := rfl
    have i2 : ('2').isDigit = true := by decide
    rw [h0]
    simp [parseDecCore, d2, d0, i2]
  have hn : normrate c9Table (toL "D") = some 3 := by decide
  exact ⟨hv, hn, c9_hwsum_formula c9Table (toL "D") 2 3 hv hn⟩

/-- Gluing a `take` to the matching `drop` of a longer `take`. -/
theorem take_append_drop_take {α : Type} (l : List α) (a b : Nat) (h : a ≤ b) :
    l.take a ++ (l.take b).drop a = l.take b := by
  conv_lhs =>
    rw [show l.take a = (l.take b).take a from by
      rw [List.take_take, Nat.min_eq_left h]]
  exact List.take_append_drop a (l.take b)

/-- Joining the two pieces computed by the file-name scanning loop gives
the file path without its last four characters. -/
theorem goSplit_concat (fp : Str) :
    ∀ j, j + 5 ≤ fp.length →
      (goSplit fp j).1 ++ (goSplit fp j).2 = fp.take (fp.length - 4) := by
  intro j
  induction j with
  | zero =>
    intro h
    rw [goSplit]
    split
    · exact take_append_drop_take fp 1 (fp.length - 4) (by omega)
    · simp
  | succ j ih =>
    intro h
    rw [goSplit]
    split
    · exact take_append_drop_take fp (j + 2) (fp.length - 4) (by omega)
    · exact ih (by omega)

/-- When the path has no slash, the loop reaches its start-of-string case
and leaves the directory part empty. -/
theorem goSplit_no_slash (fp : Str) (h : ('/' : Char) ∉ fp) :
    ∀ j, (goSplit fp j).1 = [] := by
  intro j
  induction j with
  | zero =>
    rw [goSplit]
    split
    · rename_i hsl
      exact absurd (List.mem_iff_get?.mpr ⟨0, hsl⟩) h
    · rfl
  | succ j ih =>
    rw [goSplit]
    split
    · rename_i hsl
      exact absurd (List.mem_iff_get?.mpr ⟨j + 1, hsl⟩) h
    · exact ih

/-- C10: for every accepted file path (length at least 5, ending in
`".map"`), the constructor's decomposition satisfies
`path + name + ".map" == filepath` exactly, with `path` empty when the
input has no `'/'`; hence `save` targets exactly the constructed-from file
(`path + name + ".map"`), and its backup name is the same path with
`"_old.map"` in place of `".map"`; and any successfully constructed object
carries exactly this decomposition in its `path` and `name` fields. -/
theorem c10_path_decomposition (fp : Str) (h5 : 5 ≤ fp.length)
    (hext : fp.drop (fp.length - 4) = toL ".map") :
    (splitPathName fp).1 ++ (splitPathName fp).2 ++ toL ".map" = fp ∧
    (('/' : Char) ∉ fp → (splitPathName fp).1 = []) ∧
    (splitPathName fp).1 ++ (splitPathName fp).2 ++ toL "_old.map" =
      fp.take (fp.length - 4) ++ toL "_old.map" ∧
    (∀ fs p, pedInit fp fs = .ok p →
      p.path = (splitPathName fp).1 ∧ p.name = (splitPathName fp).2) := by
  have hcat : (splitPathName fp).1 ++ (splitPathName fp).2 = fp.take (fp.length - 4) :=
    goSplit_concat fp (fp.length - 5) (by omega)
  refine ⟨?_, fun h => goSplit_no_slash fp h _, ?_, ?_⟩
  · rw [hcat, ← hext, List.take_append_drop]
  · rw [hcat]
  · intro fs p hinit
    obtain ⟨ls, _, hpp, _, _⟩ := pedInit_some hinit
    obtain ⟨h1, h2, -⟩ := parsePed_fields hpp
    exact ⟨h1, h2⟩

/-- C10 witness: the decomposition at the concrete path `"ab/c.map"`. -/
theorem c10_path_witness :
    (5 ≤ (toL "ab/c.map").length) ∧
    ((toL "ab/c.map").drop ((toL "ab/c.map").length - 4) = toL ".map") ∧
    ((splitPathName (toL "ab/c.map")).1 ++ (splitPathName (toL "ab/c.map")).2 ++
        toL ".map" = toL "ab/c.map" ∧
      (('/' : Char) ∉ toL "ab/c.map" → (splitPathName (toL "ab/c.map")).1 = []) ∧
      (splitPathName (toL "ab/c.map")).1 ++ (splitPathName (toL "ab/c.map")).2 ++
          toL "_old.map" =
        (toL "ab/c.map").take ((toL "ab/c.map").length - 4) ++ toL "_old.map" ∧
      (∀ fs p, pedInit (toL "ab/c.map") fs = .ok p →
        p.path = (splitPathName (toL "ab/c.map")).1 ∧
        p.name = (splitPathName (toL "ab/c.map")).2)) :=
  ⟨by decide, by decide,
    c10_path_decomposition (toL "ab/c.map") (by decide) (by decide)⟩

end MapFile
